import Mathlib

/-!
# Verification of the pasteJSON class generator

A shallow embedding of `src/main.rs` (`ClassGenerator`), which converts a
parsed JSON value into C# class declarations: the root object yields a
`Root` class, every object-valued property is enqueued on a FIFO work
queue and later emitted as its own class block.

Modelling decisions (all traced to the source):
* `serde_json::Value` becomes the inductive `Value`; a JSON object is the
  list of its entries in the map's iteration order (the source iterates
  `Map<String, Value>` in whatever order the map yields).
* `serde_json::Number` is internally `PosInt(u64) | NegInt(i64) | Float(f64)`;
  `is_i64` is true for `PosInt` values up to `i64::MAX` and all `NegInt`,
  `is_f64` is true exactly for the `Float` representation.  The numeric
  payload of a float never influences the generator, so the `float`
  constructor carries no payload.
* Rust panics (`unreachable!()` on `Null`, `unwrap()` on an empty array)
  are modelled as `Option.none`; the recoverable `Err(fmt::Error)` returned
  when the top level is not an object is the distinct outcome
  `GenResult.err`, and a panic during generation is `GenResult.fatal`.
* The mutable `VecDeque` of work items is threaded explicitly: each
  resolver call returns the list of items it pushes (in push order), and
  the queue loop appends them at the back.
-/

/-- The internal representation of `serde_json::Number`:
nonnegative integers are stored as `u64` (`posInt`), negative integers as
`i64` (`negInt`), everything else as `f64` (`float`). -/
inductive JNumber where
  | posInt (n : Nat)
  | negInt (n : Int)
  | float
  deriving DecidableEq, Repr

/-- `Number::is_i64`: true for a `NegInt`, and for a `PosInt` not above
`i64::MAX`; false for a `Float`. -/
def JNumber.is_i64 : JNumber → Bool
  | .posInt n => n ≤ 9223372036854775807
  | .negInt _ => true
  | .float => false

/-- `Number::is_f64`: true exactly when the number is represented as `f64`. -/
def JNumber.is_f64 : JNumber → Bool
  | .float => true
  | _ => false

/-- `serde_json::Value`.  An object is its entry list in iteration order. -/
inductive Value where
  | null
  | bool (b : Bool)
  | num (n : JNumber)
  | str (s : String)
  | arr (items : List Value)
  | obj (entries : List (String × Value))
  deriving Repr

/-- A JSON object node: property name / value pairs in iteration order. -/
abbrev JObj := List (String × Value)

mutual

/-- Size of a JSON value, used as the termination measure. -/
def sizeV : Value → Nat
  | .null => 1
  | .bool _ => 1
  | .num _ => 1
  | .str _ => 1
  | .arr a => 1 + sizeL a
  | .obj o => 1 + sizeM o

/-- Size of a list of JSON values. -/
def sizeL : List Value → Nat
  | [] => 0
  | v :: vs => 1 + sizeV v + sizeL vs

/-- Size of an object's entry list. -/
def sizeM : JObj → Nat
  | [] => 0
  | e :: es => 1 + sizeV e.2 + sizeM es

end

/-- The descent loop inside `flatten_type`:
`while let Value::Array(a) = curr { curr = a.first().unwrap(); bracket_count += 1; }`.
Returns the first non-array value reached by repeatedly taking the first
element, together with the number of descents; `none` models the
`unwrap()` panic on an empty array. -/
def flattenLoop : Value → Option (Value × Nat)
  | .arr [] => none
  | .arr (h :: _) => (flattenLoop h).map (fun p => (p.1, p.2 + 1))
  | .null => some (.null, 0)
  | .bool b => some (.bool b, 0)
  | .num n => some (.num n, 0)
  | .str s => some (.str s, 0)
  | .obj o => some (.obj o, 0)

/-- `CSharpType`: a primitive name or a custom (class / bracketed) name. -/
inductive CSharpType where
  | primitive (s : String)
  | custom (s : String)
  deriving DecidableEq, Repr

/-- `CSharpType::as_str`: the textual form of the type. -/
def CSharpType.as_str : CSharpType → String
  | .primitive s => s
  | .custom s => s

/-- ASCII uppercase of one character (`u8::make_ascii_uppercase`):
a lowercase ASCII letter is mapped to its uppercase form, every other
character is unchanged. -/
def asciiUppercaseChar (c : Char) : Char :=
  if 'a' ≤ c ∧ c ≤ 'z' then Char.ofNat (c.toNat - 32) else c

/-- ASCII lowercase of one character (`u8::make_ascii_lowercase`):
an uppercase ASCII letter is mapped to its lowercase form, every other
character is unchanged. -/
def asciiLowercaseChar (c : Char) : Char :=
  if 'A' ≤ c ∧ c ≤ 'Z' then Char.ofNat (c.toNat + 32) else c

/-- `str::to_ascii_lowercase`: every character ASCII-lowercased. -/
def to_ascii_lowercase (s : String) : String :=
  String.mk (s.data.map asciiLowercaseChar)

/-- `ClassGenerator::titlecase`: `name.get_mut(0..1)` yields the first byte
exactly when the string is nonempty and its first character is ASCII
(a one-byte character), and that byte is then ASCII-uppercased; otherwise
the string is returned unchanged. -/
def titlecase (name : String) : String :=
  match name.data with
  | [] => name
  | c :: cs => if c.toNat < 128 then String.mk (asciiUppercaseChar c :: cs) else name

/-- `"[]".repeat(n)`: the trailing bracket suffix for `n` array levels. -/
def bracketSuffix : Nat → String
  | 0 => ""
  | n + 1 => bracketSuffix n ++ "[]"

theorem flattenLoop_size :
    ∀ (v : Value) (b : Value) (c : Nat), flattenLoop v = some (b, c) → sizeV b ≤ sizeV v := by
  intro v
  induction v using flattenLoop.induct
  case case1 => intro b c h; simp [flattenLoop] at h
  case case2 h t ih =>
    intro b c hb
    simp only [flattenLoop, Option.map_eq_some'] at hb
    obtain ⟨⟨b', c'⟩, hb', heq⟩ := hb
    obtain ⟨rfl, rfl⟩ : b' = b ∧ c' + 1 = c := Prod.mk.injEq .. ▸ heq
    exact le_trans (ih _ _ hb') (by simp only [sizeV, sizeL]; omega)
  all_goals (intro b c h; simp only [flattenLoop, Option.some_inj] at h; cases h; omega)

theorem flattenLoop_arr_size {a : List Value} {b : Value} {c : Nat}
    (h : flattenLoop (.arr a) = some (b, c)) : sizeV b < sizeV (.arr a) := by
  match a with
  | [] => simp [flattenLoop] at h
  | hd :: t =>
    simp only [flattenLoop, Option.map_eq_some'] at h
    obtain ⟨⟨b', c'⟩, hb, heq⟩ := h
    obtain rfl : b' = b := congrArg Prod.fst heq
    exact lt_of_le_of_lt (flattenLoop_size hd _ c' hb)
      (by simp only [sizeV, sizeL]; omega)

mutual

/-- `ClassGenerator::find_type`: resolves one `(property name, value)` entry
to a `CSharpType`.  The mutable queue is made explicit: the second
component of the result is the list of work items this call pushes
(`[]` for primitives, the single discovered class for an object).
`none` models the `unreachable!()` panic on `Null` (and, through
`flatten_type`, the panic on an empty array). -/
def find_type (name : String) (v : Value) : Option (CSharpType × List (String × JObj)) :=
  match v with
  | .str _ => some (.primitive "string", [])
  | .num num =>
      if num.is_i64 then some (.primitive "int", [])
      else if num.is_f64 then some (.primitive "float", [])
      else some (.primitive "uint", [])
  | .bool _ => some (.primitive "bool", [])
  | .arr a => (flatten_type name a).map (fun p => (CSharpType.custom p.1, p.2))
  | .obj o =>
      let class_name := titlecase name
      some (.custom class_name, [(class_name, o)])
  | .null => none
termination_by (sizeV v, 1)

/-- `ClassGenerator::flatten_type`: descends the first elements of the
array until a non-array value is reached (the `flattenLoop`), resolves
that base value by name, and appends one `[]` per descent. -/
def flatten_type (name : String) (a : List Value) : Option (String × List (String × JObj)) :=
  match hfl : flattenLoop (.arr a) with
  | none => none
  | some (base, cnt) =>
      (find_type name base).map (fun p => (p.1.as_str ++ bracketSuffix cnt, p.2))
termination_by (sizeV (Value.arr a), 0)
decreasing_by
  exact Prod.Lex.left _ _ (flattenLoop_arr_size hfl)

end

/-- `ClassGenerator::generate_properties`: one line per entry, in the
object's iteration order.  Returns the emitted text together with the work
items pushed while resolving the entries (in push order); `none` models a
panic inside `find_type`. -/
def generate_properties : JObj → Option (String × List (String × JObj))
  | [] => some ("", [])
  | (k, v) :: rest =>
      match find_type k v with
      | none => none
      | some (cls, items) =>
          match generate_properties rest with
          | none => none
          | some (s, items2) =>
              some ("    public " ++ cls.as_str ++ " " ++ to_ascii_lowercase k
                      ++ " \x7b get; set; \x7d\n" ++ s,
                    items ++ items2)

/-- Total size of a work queue, the termination measure of the
generation loop. -/
def qsize : List (String × JObj) → Nat
  | [] => 0
  | it :: rest => 1 + sizeM it.2 + qsize rest

theorem qsize_append (a b : List (String × JObj)) :
    qsize (a ++ b) = qsize a + qsize b := by
  induction a with
  | nil => simp [qsize]
  | cons it rest ih => simp [qsize, ih]; omega

theorem find_type_qsize :
    ∀ (n : Nat) (nm : String) (v : Value) (t : CSharpType) (items : List (String × JObj)),
      sizeV v ≤ n → find_type nm v = some (t, items) → qsize items ≤ sizeV v := by
  intro n
  induction n with
  | zero => intro nm v t items hle; cases v <;> simp [sizeV] at hle
  | succ n ih =>
    intro nm v t items hle hft
    match v with
    | .null => rw [find_type] at hft; cases hft
    | .str s => rw [find_type] at hft; cases hft; simp [qsize]
    | .bool b => rw [find_type] at hft; cases hft; simp [qsize]
    | .num m =>
        rw [find_type] at hft
        split at hft <;> [skip; split at hft] <;> (cases hft; simp [qsize])
    | .obj o =>
        simp only [find_type] at hft
        cases hft
        simp [qsize, sizeV]
    | .arr a =>
        rw [find_type, Option.map_eq_some'] at hft
        obtain ⟨⟨s, items'⟩, hfl, heq⟩ := hft
        cases heq
        rw [flatten_type] at hfl
        split at hfl
        · cases hfl
        · rename_i base cnt hbase
          rw [Option.map_eq_some'] at hfl
          obtain ⟨⟨t', items''⟩, hbt, heq2⟩ := hfl
          cases heq2
          have hlt : sizeV base < sizeV (.arr a) := flattenLoop_arr_size hbase
          exact le_trans (ih nm base t' items'' (by omega) hbt) (le_of_lt hlt)

theorem generate_properties_qsize :
    ∀ (m : JObj) (s : String) (items : List (String × JObj)),
      generate_properties m = some (s, items) → qsize items ≤ sizeM m := by
  intro m
  induction m with
  | nil =>
      intro s items h
      rw [generate_properties] at h
      cases h
      simp [qsize, sizeM]
  | cons e rest ih =>
      intro s items h
      obtain ⟨k, v⟩ := e
      rw [generate_properties] at h
      split at h
      · cases h
      · rename_i cls items1 hft
        split at h
        · cases h
        · rename_i s2 items2 hgp
          cases h
          have h1 : qsize items1 ≤ sizeV v := find_type_qsize (sizeV v) k v cls items1 le_rfl hft
          have h2 : qsize items2 ≤ sizeM rest := ih s2 items2 hgp
          rw [qsize_append]
          simp only [sizeM]
          omega

/-- Outcome of `ClassGenerator::generate`:
`ok` is `Ok(out)`, `err` is the returned `Err(fmt::Error)` when the top
level is not an object, `fatal` is a panic (`unreachable!()` on `Null`,
`unwrap()` on an empty array) aborting the run with no result. -/
inductive GenResult where
  | ok (out : String)
  | err
  | fatal
  deriving DecidableEq, Repr

/-- The `while let Some((class, node)) = self.todos.pop_front()` loop of
`generate`: pop the front work item, emit its block, append the items
discovered while generating its properties at the back of the queue. -/
def processQueue (queue : List (String × JObj)) (out : String) : Option String :=
  match queue with
  | [] => some out
  | (class_name, node) :: rest =>
      match h : generate_properties node with
      | none => none
      | some (props, items) =>
          processQueue (rest ++ items)
            (out ++ "\npublic class " ++ class_name ++ "\n\x7b\n" ++ props ++ "\x7d\n")
termination_by qsize queue
decreasing_by
  have hq := generate_properties_qsize node props items h
  rw [qsize_append]
  simp only [qsize]
  omega

/-- `ClassGenerator::generate`: requires the top level to be an object
(`as_object().ok_or(fmt::Error)?`), emits the `Root` block, then drains
the work queue. -/
def generate (ast : Value) : GenResult :=
  match ast with
  | .obj root =>
      match generate_properties root with
      | none => .fatal
      | some (props, items) =>
          match processQueue items ("public class Root\n\x7b\n" ++ props ++ "\x7d\n") with
          | none => .fatal
          | some out => .ok out
  | _ => .err

/-- The text of one non-root class block, exactly as the queue loop
writes it: a blank line, the class header, the properties, the closing
brace. -/
def renderBlock (b : String × String) : String :=
  "\npublic class " ++ b.1 ++ "\n\x7b\n" ++ b.2 ++ "\x7d\n"

/-- Concatenation of rendered class blocks. -/
def joinBlocks : List (String × String) → String
  | [] => ""
  | b :: bs => renderBlock b ++ joinBlocks bs

/-- The sequence of (class name, properties text) blocks the queue loop
emits, in emission order; `none` when the loop panics. -/
def blocksOf (queue : List (String × JObj)) : Option (List (String × String)) :=
  match queue with
  | [] => some []
  | (class_name, node) :: rest =>
      match h : generate_properties node with
      | none => none
      | some (props, items) =>
          (blocksOf (rest ++ items)).map (fun bs => (class_name, props) :: bs)
termination_by qsize queue
decreasing_by
  have hq := generate_properties_qsize node props items h
  rw [qsize_append]
  simp only [qsize]
  omega

theorem flattenLoop_not_arr :
    ∀ (v b : Value) (c : Nat), flattenLoop v = some (b, c) → ∀ l, b ≠ .arr l := by
  intro v
  induction v using flattenLoop.induct
  case case1 => intro b c h; simp [flattenLoop] at h
  case case2 h t ih =>
    intro b c hb
    simp only [flattenLoop, Option.map_eq_some'] at hb
    obtain ⟨⟨b', c'⟩, hb', heq⟩ := hb
    obtain rfl : b' = b := congrArg Prod.fst heq
    exact ih _ c' hb'
  all_goals (intro b c h; simp only [flattenLoop, Option.some_inj] at h; cases h; simp)

mutual

/-- The number of object-valued properties the generator encounters while
traversing the value `v` of one property, counted with multiplicity: an
object counts itself plus its own discoveries; an array counts whatever
lies at the bottom of its first-element descent; primitives count zero. -/
def cV (v : Value) : Nat :=
  match v with
  | .obj o => 1 + cM o
  | .arr a =>
      match hb : flattenLoop (.arr a) with
      | some (.obj o, _) => 1 + cM o
      | _ => 0
  | _ => 0
termination_by sizeV v
decreasing_by
  · simp only [sizeV]; omega
  · have := flattenLoop_arr_size hb
    simp only [sizeV] at this ⊢
    omega

/-- Total discovery count over one object's entries. -/
def cM : JObj → Nat
  | [] => 0
  | e :: es => cV e.2 + cM es
termination_by m => sizeM m
decreasing_by
  · simp only [sizeM]; omega
  · simp only [sizeM]; omega

end

/-- Total discovery count over a list of work items. -/
def itemsCount : List (String × JObj) → Nat
  | [] => 0
  | it :: rest => cM it.2 + itemsCount rest

theorem itemsCount_append (a b : List (String × JObj)) :
    itemsCount (a ++ b) = itemsCount a + itemsCount b := by
  induction a with
  | nil => simp [itemsCount]
  | cons it rest ih => simp [itemsCount, ih]; omega

theorem find_type_count (nm : String) (v : Value) (t : CSharpType)
    (items : List (String × JObj)) (hft : find_type nm v = some (t, items)) :
    items.length + itemsCount items = cV v := by
  match v with
  | .null => rw [find_type] at hft; cases hft
  | .str s => rw [find_type] at hft; cases hft; simp [itemsCount, cV]
  | .bool b => rw [find_type] at hft; cases hft; simp [itemsCount, cV]
  | .num m =>
      rw [find_type] at hft
      split at hft <;> [skip; split at hft] <;> (cases hft; simp [itemsCount, cV])
  | .obj o =>
      simp only [find_type] at hft
      cases hft
      simp [itemsCount, cV, cM]
  | .arr a =>
      rw [find_type, Option.map_eq_some'] at hft
      obtain ⟨⟨s, items'⟩, hfl, heq⟩ := hft
      cases heq
      rw [flatten_type] at hfl
      split at hfl
      · cases hfl
      · rename_i base cnt hbase
        rw [Option.map_eq_some'] at hfl
        obtain ⟨⟨t', items''⟩, hbt, heq2⟩ := hfl
        cases heq2
        match base with
        | .arr l => exact absurd rfl (flattenLoop_not_arr _ _ _ hbase l)
        | .null => rw [find_type] at hbt; cases hbt
        | .str s2 =>
            rw [find_type] at hbt; cases hbt
            rw [cV]; rw [hbase]; simp [itemsCount]
        | .bool b2 =>
            rw [find_type] at hbt; cases hbt
            rw [cV]; rw [hbase]; simp [itemsCount]
        | .num m2 =>
            rw [find_type] at hbt
            split at hbt <;> [skip; split at hbt] <;>
              (cases hbt; rw [cV]; rw [hbase]; simp [itemsCount])
        | .obj o2 =>
            simp only [find_type] at hbt
            cases hbt
            rw [cV]; rw [hbase]
            simp [itemsCount, cV, cM]

theorem generate_properties_count (m : JObj) (s : String)
    (items : List (String × JObj)) (h : generate_properties m = some (s, items)) :
    items.length + itemsCount items = cM m := by
  induction m generalizing s items with
  | nil =>
      rw [generate_properties] at h
      cases h
      simp [itemsCount, cM]
  | cons e rest ih =>
      obtain ⟨k, v⟩ := e
      rw [generate_properties] at h
      split at h
      · cases h
      · rename_i cls items1 hft
        split at h
        · cases h
        · rename_i s2 items2 hgp
          cases h
          have h1 := find_type_count k v cls items1 hft
          have h2 := ih s2 items2 hgp
          rw [cM]
          simp only [List.length_append, itemsCount_append]
          omega

theorem processQueue_nil (out : String) : processQueue [] out = some out := by
  rw [processQueue]

theorem processQueue_cons_none {node : JObj} (c : String)
    (rest : List (String × JObj)) (out : String)
    (hgp : generate_properties node = none) :
    processQueue ((c, node) :: rest) out = none := by
  rw [processQueue]
  split
  · rfl
  · rename_i props items h
    rw [hgp] at h
    cases h

theorem processQueue_cons_some {node : JObj} {props : String}
    {items : List (String × JObj)} (c : String) (rest : List (String × JObj))
    (out : String) (hgp : generate_properties node = some (props, items)) :
    processQueue ((c, node) :: rest) out =
      processQueue (rest ++ items)
        (out ++ "\npublic class " ++ c ++ "\n\x7b\n" ++ props ++ "\x7d\n") := by
  rw [processQueue]
  split
  · rename_i h; rw [hgp] at h; cases h
  · rename_i props' items' h
    rw [hgp] at h
    cases h
    rfl

theorem blocksOf_nil : blocksOf [] = some [] := by
  rw [blocksOf]

theorem blocksOf_cons_none {node : JObj} (c : String)
    (rest : List (String × JObj)) (hgp : generate_properties node = none) :
    blocksOf ((c, node) :: rest) = none := by
  rw [blocksOf]
  split
  · rfl
  · rename_i props items h
    rw [hgp] at h
    cases h

theorem blocksOf_cons_some {node : JObj} {props : String}
    {items : List (String × JObj)} (c : String) (rest : List (String × JObj))
    (hgp : generate_properties node = some (props, items)) :
    blocksOf ((c, node) :: rest) =
      (blocksOf (rest ++ items)).map (fun bs => (c, props) :: bs) := by
  rw [blocksOf]
  split
  · rename_i h; rw [hgp] at h; cases h
  · rename_i props' items' h
    rw [hgp] at h
    cases h
    rfl

theorem processQueue_blocks :
    ∀ (queue : List (String × JObj)) (out : String),
      processQueue queue out = (blocksOf queue).map (fun bs => out ++ joinBlocks bs) := by
  intro queue
  induction queue using blocksOf.induct
  case case1 =>
    intro out
    rw [processQueue_nil, blocksOf_nil]
    simp [joinBlocks, String.append_empty]
  case case2 class_name node rest hgp =>
    intro out
    rw [processQueue_cons_none class_name rest out hgp,
        blocksOf_cons_none class_name rest hgp]
    rfl
  case case3 class_name node rest props items hgp ih =>
    intro out
    rw [processQueue_cons_some class_name rest out hgp,
        blocksOf_cons_some class_name rest hgp]
    rw [ih]
    rw [Option.map_map]
    apply congrArg (fun f => Option.map f (blocksOf (rest ++ items)))
    funext bs
    simp [joinBlocks, renderBlock, Function.comp, String.append_assoc]

theorem blocksOf_length :
    ∀ (queue : List (String × JObj)) (bs : List (String × String)),
      blocksOf queue = some bs → bs.length = queue.length + itemsCount queue := by
  intro queue
  induction queue using blocksOf.induct
  case case1 =>
    intro bs h
    rw [blocksOf_nil] at h
    cases h
    simp [itemsCount]
  case case2 class_name node rest hgp =>
    intro bs h
    rw [blocksOf_cons_none class_name rest hgp] at h
    cases h
  case case3 class_name node rest props items hgp ih =>
    intro bs h
    rw [blocksOf_cons_some class_name rest hgp, Option.map_eq_some'] at h
    obtain ⟨bs', hbs', rfl⟩ := h
    have hlen := ih bs' hbs'
    have hcnt := generate_properties_count node props items hgp
    simp only [List.length_cons, List.length_append, itemsCount_append, itemsCount] at hlen ⊢
    omega

theorem blocksOf_names_prefix :
    ∀ (queue : List (String × JObj)) (bs : List (String × String)),
      blocksOf queue = some bs →
      (bs.map Prod.fst).take queue.length = queue.map Prod.fst := by
  intro queue
  induction queue using blocksOf.induct
  case case1 =>
    intro bs h
    rw [blocksOf_nil] at h
    cases h
    simp
  case case2 class_name node rest hgp =>
    intro bs h
    rw [blocksOf_cons_none class_name rest hgp] at h
    cases h
  case case3 class_name node rest props items hgp ih =>
    intro bs h
    rw [blocksOf_cons_some class_name rest hgp, Option.map_eq_some'] at h
    obtain ⟨bs', hbs', rfl⟩ := h
    have hpre := ih bs' hbs'
    simp only [List.map_cons, List.length_cons, List.take_succ_cons]
    have hrest : (bs'.map Prod.fst).take rest.length = rest.map Prod.fst := by
      have h1 : (bs'.map Prod.fst).take rest.length
          = ((bs'.map Prod.fst).take (rest ++ items).length).take rest.length := by
        rw [List.take_take]
        have hmin : min rest.length (rest ++ items).length = rest.length := by
          simp [List.length_append]
        rw [hmin]
      rw [h1, hpre, List.map_append]
      have hlen : rest.length = (rest.map (Prod.fst (α := String) (β := JObj))).length := by
        simp
      rw [hlen, List.take_left]
    rw [hrest]

/-- Characterization of a successful `generate` run on an object:
the output is the `Root` block followed by the blocks the queue loop
emits, in order, for the items discovered while generating the root's
properties. -/
theorem generate_obj_ok (root : JObj) (out : String) :
    generate (.obj root) = .ok out ↔
      ∃ props items bs,
        generate_properties root = some (props, items) ∧
        blocksOf items = some bs ∧
        out = "public class Root\n\x7b\n" ++ props ++ "\x7d\n" ++ joinBlocks bs := by
  constructor
  · intro h
    rw [generate] at h
    split at h
    · cases h
    · rename_i props items hgp
      rw [processQueue_blocks] at h
      match hbs : blocksOf items with
      | none => rw [hbs] at h; cases h
      | some bs =>
          rw [hbs] at h
          cases h
          exact ⟨props, items, bs, hgp, hbs, rfl⟩
  · rintro ⟨props, items, bs, hgp, hbs, rfl⟩
    rw [generate]
    split
    · rename_i h; rw [hgp] at h; cases h
    · rename_i props' items' h
      rw [hgp] at h
      cases h
      rw [processQueue_blocks, hbs]
      rfl

theorem flatten_type_none (nm : String) (a : List Value)
    (hfl : flattenLoop (.arr a) = none) : flatten_type nm a = none := by
  rw [flatten_type]
  split
  · rfl
  · rename_i base cnt h
    rw [hfl] at h
    cases h

theorem flatten_type_some (nm : String) (a : List Value) (base : Value) (cnt : Nat)
    (hfl : flattenLoop (.arr a) = some (base, cnt)) :
    flatten_type nm a =
      (find_type nm base).map (fun p => (p.1.as_str ++ bracketSuffix cnt, p.2)) := by
  rw [flatten_type]
  split
  · rename_i h
    rw [hfl] at h
    cases h
  · rename_i base' cnt' h
    rw [hfl] at h
    cases h
    rfl

theorem flattenLoop_cons (hd : Value) (t : List Value) :
    flattenLoop (.arr (hd :: t)) = (flattenLoop hd).map (fun p => (p.1, p.2 + 1)) := by
  rw [flattenLoop]

theorem flattenLoop_non_arr (v : Value) (hv : ∀ l, v ≠ .arr l) :
    flattenLoop v = some (v, 0) := by
  cases v
  case arr l => exact absurd rfl (hv l)
  all_goals rw [flattenLoop]

/-- Resolving an array resolves its first element and appends a single
bracket pair: the loop-with-counter of `flatten_type` composes one level
at a time, and the tail of the array is never inspected. -/
theorem find_type_arr_cons (nm : String) (hd : Value) (t : List Value) :
    find_type nm (.arr (hd :: t)) =
      (find_type nm hd).map (fun p => (CSharpType.custom (p.1.as_str ++ "[]"), p.2)) := by
  obtain ⟨a', rfl⟩ | hfl0 : (∃ a', hd = Value.arr a') ∨ flattenLoop hd = some (hd, 0) := by
    cases hd
    case arr a' => exact Or.inl ⟨a', rfl⟩
    all_goals exact Or.inr (by rw [flattenLoop])
  · match hfl : flattenLoop (.arr a') with
    | none =>
        have h2 : flattenLoop (.arr (Value.arr a' :: t)) = none := by
          rw [flattenLoop_cons, hfl]
          rfl
        rw [find_type, flatten_type_none nm _ h2]
        rw [find_type, flatten_type_none nm a' hfl]
        rfl
    | some (base, cnt) =>
        have h2 : flattenLoop (.arr (Value.arr a' :: t)) = some (base, cnt + 1) := by
          rw [flattenLoop_cons, hfl]
          rfl
        rw [find_type, flatten_type_some nm _ base (cnt + 1) h2]
        rw [find_type, flatten_type_some nm a' base cnt hfl]
        simp only [Option.map_map]
        apply congrArg (fun f => Option.map f (find_type nm base))
        funext p
        simp [CSharpType.as_str, bracketSuffix, Function.comp, String.append_assoc]
  · have h2 : flattenLoop (.arr (hd :: t)) = some (hd, 1) := by
      rw [flattenLoop_cons, hfl0]
      rfl
    rw [find_type, flatten_type_some nm _ hd 1 h2]
    rw [Option.map_map]
    apply congrArg (fun f => Option.map f (find_type nm hd))
    funext p
    have hbr : bracketSuffix 1 = "[]" := rfl
    simp [hbr, Function.comp]

/-- C1: for every JSON value whose top level is an object, `generate`
terminates — in this embedding it is a total function, its recursion
proved well-founded — and a successful output decomposes as exactly one
`Root` class block followed by exactly one class block per object-valued
property encountered during traversal, counted with multiplicity
(`cM root` counts those encounters; no deduplication happens, duplicate
shapes yield duplicate blocks). -/
theorem claim_C1 (root : JObj) (out : String)
    (h : generate (.obj root) = .ok out) :
    ∃ props blocks,
      out = "public class Root\n\x7b\n" ++ props ++ "\x7d\n" ++ joinBlocks blocks ∧
      blocks.length = cM root := by
  obtain ⟨props, items, bs, hgp, hbs, rfl⟩ := (generate_obj_ok root out).mp h
  refine ⟨props, bs, rfl, ?_⟩
  rw [blocksOf_length items bs hbs]
  have hcnt := generate_properties_count root props items hgp
  omega

/-- Witness for C1 at the input `{"a": {}}`. -/
theorem claim_C1_witness :
    ∃ props blocks,
      "public class Root\n\x7b\n    public A a \x7b get; set; \x7d\n\x7d\n\npublic class A\n\x7b\n\x7d\n"
        = "public class Root\n\x7b\n" ++ props ++ "\x7d\n" ++ joinBlocks blocks ∧
      blocks.length = cM [("a", Value.obj [])] :=
  claim_C1 [("a", Value.obj [])] _ ((generate_obj_ok _ _).mpr
    ⟨"    public A a \x7b get; set; \x7d\n", [("A", [])], [("A", "")],
      by simp [generate_properties, find_type, titlecase, asciiUppercaseChar,
           to_ascii_lowercase, asciiLowercaseChar, CSharpType.as_str],
      by rw [blocksOf_cons_some "A" [] (by rw [generate_properties])]
         simp [blocksOf_nil],
      by simp [joinBlocks, renderBlock]⟩)

/-- C2: blocks are emitted in strict FIFO discovery order — the first
`queue.length` emitted block names are exactly the queued names in order
(items discovered during processing are appended behind every item
already queued) — and the `Root` block is always first in the output. -/
theorem claim_C2 :
    (∀ (queue : List (String × JObj)) (bs : List (String × String)),
        blocksOf queue = some bs →
        (bs.map Prod.fst).take queue.length = queue.map Prod.fst) ∧
    (∀ (root : JObj) (out : String), generate (.obj root) = .ok out →
        ∃ props rest,
          out = "public class Root\n\x7b\n" ++ props ++ "\x7d\n" ++ rest) := by
  constructor
  · exact blocksOf_names_prefix
  · intro root out h
    obtain ⟨props, items, bs, hgp, hbs, rfl⟩ := (generate_obj_ok root out).mp h
    exact ⟨props, joinBlocks bs, rfl⟩

/-- Witness for C2: a one-item queue emits that item's name first. -/
theorem claim_C2_witness :
    (([("A", "")] : List (String × String)).map Prod.fst).take
        ([("A", ([] : JObj))] : List (String × JObj)).length
      = ([("A", ([] : JObj))] : List (String × JObj)).map Prod.fst :=
  claim_C2.1 [("A", [])] [("A", "")]
    (by rw [blocksOf_cons_some "A" [] (by rw [generate_properties])]
        simp [blocksOf_nil])

/-- C3: the concrete scenario
`{"id": 5, "name": "Alice", "address": {"city": "Seattle", "zip": 98105}}`
produces exactly the `Root` block (`id:int`, `name:string`,
`address:Address`), a blank line, and the `Address` block
(`city:string`, `zip:int`) — two blocks, `Root` first. -/
theorem claim_C3 :
    generate (.obj [("id", .num (.posInt 5)), ("name", .str "Alice"),
        ("address", .obj [("city", .str "Seattle"), ("zip", .num (.posInt 98105))])]) =
      .ok ("public class Root\n\x7b\n    public int id \x7b get; set; \x7d\n    public string name \x7b get; set; \x7d\n    public Address address \x7b get; set; \x7d\n\x7d\n\npublic class Address\n\x7b\n    public string city \x7b get; set; \x7d\n    public int zip \x7b get; set; \x7d\n\x7d\n") := by
  have haddr : generate_properties
      [("city", Value.str "Seattle"), ("zip", Value.num (.posInt 98105))] =
      some ("    public string city \x7b get; set; \x7d\n    public int zip \x7b get; set; \x7d\n",
        []) := by
    simp [generate_properties, find_type, to_ascii_lowercase, asciiLowercaseChar,
      CSharpType.as_str, JNumber.is_i64]
  apply (generate_obj_ok _ _).mpr
  refine ⟨"    public int id \x7b get; set; \x7d\n    public string name \x7b get; set; \x7d\n    public Address address \x7b get; set; \x7d\n",
    [("Address", [("city", .str "Seattle"), ("zip", .num (.posInt 98105))])],
    [("Address", "    public string city \x7b get; set; \x7d\n    public int zip \x7b get; set; \x7d\n")],
    ?_, ?_, ?_⟩
  · simp [generate_properties, find_type, titlecase, asciiUppercaseChar,
      to_ascii_lowercase, asciiLowercaseChar, CSharpType.as_str, JNumber.is_i64]
  · rw [blocksOf_cons_some "Address" [] haddr]
    simp [blocksOf_nil]
  · simp [joinBlocks, renderBlock]

/-- C4: a non-object top level yields the structural error result `err`
(the `Err(fmt::Error)` of `as_object().ok_or(...)`): nothing is enqueued
and no output text is produced. -/
theorem claim_C4 (v : Value) (h : ∀ o : JObj, v ≠ .obj o) :
    generate v = GenResult.err := by
  cases v
  case obj o => exact absurd rfl (h o)
  all_goals rw [generate]
  all_goals (intro root h2; cases h2)

/-- Witness for C4 at the bare array `["x"]`. -/
theorem claim_C4_witness : generate (.arr [.str "x"]) = GenResult.err :=
  claim_C4 (.arr [.str "x"]) (by intro o h; cases h)

/-- C5: type resolution of `Null` panics (`unreachable!()`), an empty
array at any nesting level panics (`first().unwrap()` — an outer level
propagates its first element's panic), and `generate` on `{"tags": []}`
is the fatal outcome, not the recoverable `err` result. -/
theorem claim_C5 :
    (∀ nm, find_type nm Value.null = none) ∧
    (∀ nm, flatten_type nm ([] : List Value) = none) ∧
    (∀ nm (hd : Value) (t : List Value),
        find_type nm hd = none → find_type nm (.arr (hd :: t)) = none) ∧
    generate (.obj [("tags", .arr [])]) = GenResult.fatal := by
  refine ⟨?_, ?_, ?_, ?_⟩
  · intro nm
    rw [find_type]
  · intro nm
    exact flatten_type_none nm [] (by rw [flattenLoop])
  · intro nm hd t hnone
    rw [find_type_arr_cons, hnone]
    rfl
  · have hft : find_type "tags" (Value.arr []) = none := by
      rw [find_type, flatten_type_none "tags" [] (by rw [flattenLoop])]
      rfl
    have hgp : generate_properties [("tags", Value.arr [])] = none := by
      rw [generate_properties, hft]
    simp only [generate, hgp]

/-- Witness for C5: an empty array nested one level down also panics. -/
theorem claim_C5_witness : find_type "x" (.arr [Value.arr []]) = none :=
  claim_C5.2.2.1 "x" (Value.arr []) []
    (by rw [find_type, flatten_type_none "x" [] (by rw [flattenLoop])]
        rfl)

/-- C6: a number is classified in priority order on its representation:
`is_i64` (a `NegInt`, or a `PosInt` within signed range) gives `int`;
otherwise `is_f64` (the `Float` representation) gives `float`; otherwise
(a 64-bit value outside signed range) `uint`.  Concretely `5` is `int`,
a float (`5.0`, `5.5`) is `float`, and `2^63` is `uint`. -/
theorem claim_C6 :
    (∀ (nm : String) (n : JNumber), n.is_i64 = true →
        find_type nm (.num n) = some (.primitive "int", [])) ∧
    (∀ (nm : String) (n : JNumber), n.is_i64 = false → n.is_f64 = true →
        find_type nm (.num n) = some (.primitive "float", [])) ∧
    (∀ (nm : String) (n : JNumber), n.is_i64 = false → n.is_f64 = false →
        find_type nm (.num n) = some (.primitive "uint", [])) ∧
    find_type "n" (.num (.posInt 5)) = some (.primitive "int", []) ∧
    find_type "n" (.num .float) = some (.primitive "float", []) ∧
    find_type "n" (.num (.posInt 9223372036854775808)) = some (.primitive "uint", []) := by
  refine ⟨?_, ?_, ?_, ?_, ?_, ?_⟩
  · intro nm n h
    simp [find_type, h]
  · intro nm n h1 h2
    simp [find_type, h1, h2]
  · intro nm n h1 h2
    simp [find_type, h1, h2]
  · simp [find_type, JNumber.is_i64]
  · simp [find_type, JNumber.is_i64, JNumber.is_f64]
  · simp [find_type, JNumber.is_i64, JNumber.is_f64]

/-- Witness for C6: a negative integer is in signed range, hence `int`. -/
theorem claim_C6_witness :
    find_type "n" (.num (.negInt (-3))) = some (.primitive "int", []) :=
  claim_C6.1 "n" (.negInt (-3)) (by rfl)

/-- C7: resolving an array resolves its first element under the same
property name and appends one `[]` per nesting level; the tail is never
inspected.  Concretely `[[1,2],[3]]` is `int[][]` and `["a","b"]` is
`string[]`. -/
theorem claim_C7 :
    (∀ (nm : String) (hd : Value) (t : List Value),
        find_type nm (.arr (hd :: t)) =
          (find_type nm hd).map
            (fun p => (CSharpType.custom (p.1.as_str ++ "[]"), p.2))) ∧
    find_type "x" (.arr [.arr [.num (.posInt 1), .num (.posInt 2)],
        .arr [.num (.posInt 3)]]) = some (.custom "int[][]", []) ∧
    find_type "x" (.arr [.str "a", .str "b"]) = some (.custom "string[]", []) := by
  refine ⟨find_type_arr_cons, ?_, ?_⟩
  · simp [find_type, flatten_type, flattenLoop, bracketSuffix, CSharpType.as_str,
      JNumber.is_i64]
  · simp [find_type, flatten_type, flattenLoop, bracketSuffix, CSharpType.as_str]

/-- C8: each property emits exactly one
`    public <TypeText> <name> { get; set; }` line where `<name>` is the
original key with every ASCII uppercase letter lowercased and nothing
else changed — no stripping, no escaping, no validation: an illegal
identifier such as `My Key!` passes through verbatim. -/
theorem claim_C8 :
    (∀ (k : String) (v : Value) (rest : JObj) (ty : CSharpType)
        (items : List (String × JObj)) (s : String)
        (items2 : List (String × JObj)),
        find_type k v = some (ty, items) →
        generate_properties rest = some (s, items2) →
        generate_properties ((k, v) :: rest) =
          some ("    public " ++ ty.as_str ++ " " ++ to_ascii_lowercase k
              ++ " \x7b get; set; \x7d\n" ++ s, items ++ items2)) ∧
    (∀ s : String, (to_ascii_lowercase s).data = s.data.map asciiLowercaseChar) ∧
    (∀ c : Char, ¬('A' ≤ c ∧ c ≤ 'Z') → asciiLowercaseChar c = c) ∧
    generate_properties [("My Key!", .str "v")] =
      some ("    public string my key! \x7b get; set; \x7d\n", []) := by
  refine ⟨?_, ?_, ?_, ?_⟩
  · intro k v rest ty items s items2 hft hgp
    rw [generate_properties, hft, hgp]
  · intro s
    rfl
  · intro c hc
    rw [asciiLowercaseChar, if_neg hc]
  · simp [generate_properties, find_type, to_ascii_lowercase, asciiLowercaseChar,
      CSharpType.as_str]

/-- Witness for C8: one string property emits exactly its line. -/
theorem claim_C8_witness :
    generate_properties [("K", Value.str "v")] =
      some ("    public " ++ (CSharpType.primitive "string").as_str ++ " "
          ++ to_ascii_lowercase "K" ++ " \x7b get; set; \x7d\n" ++ "",
        ([] : List (String × JObj)) ++ []) :=
  claim_C8.1 "K" (Value.str "v") [] (CSharpType.primitive "string") [] "" []
    (by rw [find_type]) (by rw [generate_properties])

/-- C9: the class name for an object-valued property is the original
property name with only its first character ASCII-uppercased; every other
character is unchanged, a leading character that is not a lowercase ASCII
letter is untouched, and a non-ASCII leading character (a multi-byte
character, so byte range `0..1` is not a char boundary) leaves the whole
string unmodified. -/
theorem claim_C9 :
    (∀ (s : String) (c : Char) (cs : List Char), s.data = c :: cs →
        c.toNat < 128 → (titlecase s).data = asciiUppercaseChar c :: cs) ∧
    (∀ (s : String) (c : Char) (cs : List Char), s.data = c :: cs →
        128 ≤ c.toNat → titlecase s = s) ∧
    (∀ c : Char, ¬('a' ≤ c ∧ c ≤ 'z') → asciiUppercaseChar c = c) ∧
    titlecase "address" = "Address" ∧
    titlecase "my-class" = "My-class" ∧
    titlecase "über" = "über" := by
  refine ⟨?_, ?_, ?_, ?_, ?_, ?_⟩
  · intro s c cs hdata hascii
    simp only [titlecase, hdata]
    rw [if_pos hascii]
  · intro s c cs hdata hbig
    simp only [titlecase, hdata]
    rw [if_neg (by omega)]
  · intro c hc
    rw [asciiUppercaseChar, if_neg hc]
  · simp [titlecase, asciiUppercaseChar]
  · simp [titlecase, asciiUppercaseChar]
  · simp [titlecase]

/-- Witness for C9: `"abc"` has ASCII first character `'a'`. -/
theorem claim_C9_witness :
    (titlecase "abc").data = asciiUppercaseChar 'a' :: ['b', 'c'] :=
  claim_C9.1 "abc" 'a' ['b', 'c'] (by rfl) (by decide)

/-- C10: resolving a String, Number, or Boolean yields a primitive and
pushes no work item; a resolver call pushes a (single) work item only
when the value is an object, or an array whose first-element descent
bottoms out at an object. -/
theorem claim_C10 :
    (∀ (nm s : String), find_type nm (.str s) = some (.primitive "string", [])) ∧
    (∀ (nm : String) (b : Bool), find_type nm (.bool b) = some (.primitive "bool", [])) ∧
    (∀ (nm : String) (n : JNumber), ∃ p,
        find_type nm (.num n) = some (.primitive p, [])) ∧
    (∀ (nm : String) (v : Value) (ty : CSharpType)
        (items : List (String × JObj)),
        find_type nm v = some (ty, items) → items ≠ [] →
        (∃ o : JObj, v = .obj o ∧ items = [(titlecase nm, o)]) ∨
        (∃ (a : List Value) (o : JObj) (cnt : Nat),
            v = .arr a ∧ flattenLoop (.arr a) = some (.obj o, cnt) ∧
            items = [(titlecase nm, o)])) := by
  refine ⟨?_, ?_, ?_, ?_⟩
  · intro nm s
    rw [find_type]
  · intro nm b
    rw [find_type]
  · intro nm n
    rw [find_type]
    split
    · exact ⟨"int", rfl⟩
    · split
      · exact ⟨"float", rfl⟩
      · exact ⟨"uint", rfl⟩
  · intro nm v ty items hft hne
    match v with
    | .null => rw [find_type] at hft; cases hft
    | .str s => rw [find_type] at hft; cases hft; exact absurd rfl hne
    | .bool b => rw [find_type] at hft; cases hft; exact absurd rfl hne
    | .num m =>
        rw [find_type] at hft
        split at hft <;> [skip; split at hft] <;>
          (cases hft; exact absurd rfl hne)
    | .obj o =>
        simp only [find_type] at hft
        cases hft
        exact Or.inl ⟨o, rfl, rfl⟩
    | .arr a =>
        rw [find_type, Option.map_eq_some'] at hft
        obtain ⟨⟨s, items'⟩, hfl, heq⟩ := hft
        cases heq
        rw [flatten_type] at hfl
        split at hfl
        · cases hfl
        · rename_i base cnt hbase
          rw [Option.map_eq_some'] at hfl
          obtain ⟨⟨t', items''⟩, hbt, heq2⟩ := hfl
          cases heq2
          match base with
          | .arr l => exact absurd rfl (flattenLoop_not_arr _ _ _ hbase l)
          | .null => rw [find_type] at hbt; cases hbt
          | .str s2 => rw [find_type] at hbt; cases hbt; exact absurd rfl hne
          | .bool b2 => rw [find_type] at hbt; cases hbt; exact absurd rfl hne
          | .num m2 =>
              rw [find_type] at hbt
              split at hbt <;> [skip; split at hbt] <;>
                (cases hbt; exact absurd rfl hne)
          | .obj o2 =>
              simp only [find_type] at hbt
              cases hbt
              exact Or.inr ⟨a, o2, cnt, rfl, hbase, rfl⟩

/-- Witness for C10: an object value pushes exactly its work item. -/
theorem claim_C10_witness :
    (∃ o : JObj, Value.obj [] = Value.obj o ∧
        ([("A", ([] : JObj))] : List (String × JObj)) = [(titlecase "a", o)]) ∨
    (∃ (a : List Value) (o : JObj) (cnt : Nat),
        Value.obj [] = Value.arr a ∧ flattenLoop (.arr a) = some (.obj o, cnt) ∧
        ([("A", ([] : JObj))] : List (String × JObj)) = [(titlecase "a", o)]) :=
  claim_C10.2.2.2 "a" (Value.obj []) (CSharpType.custom "A") [("A", [])]
    (by simp [find_type, titlecase, asciiUppercaseChar]) (by simp)
